import Mathlib

/-!
Verification of the untis-api-client schedule model against its specification.

The development shallowly embeds the TypeScript sources:
* `Period` / `PeriodElement` / `SubstitutedPeriodElement` (the occurrence and
  element model),
* the `RPCClient` transport,
* the schedule reconstruction engine (`ScheduleCollection.fromLessons` and
  `ScheduleCollection.combineSequentialSchedules`), whose implementation file
  is absent from the sources; it is modelled from the specification text and
  grounded against the repository's test suite.

Strings are embedded as Lean `String`, JS numbers as `Int`/`Nat`, fallible
construction as `Option`.
-/

namespace Untis

/-! ## Date and time primitives

The validators `testDate`/`testTime` live in the repository's `#lib/timeformat`
module, which is not among the sources; they are modelled from the spec.
Weekday computation models `new Date("yyyy-mm-dd").getDay()` (UTC weekday,
0 = Sunday) with Sakamoto's algorithm.
-/

def digitChar (c : Char) : Bool := 48 ≤ c.toNat && c.toNat ≤ 57

def digitVal (c : Char) : Nat := c.toNat - 48

/-- Modelled from the spec: `testDate` of the missing `#lib/timeformat` module
accepts exactly the unambiguous calendar-day format `yyyy-mm-dd`. -/
def testDate (s : String) : Bool :=
  match s.data with
  | [y1, y2, y3, y4, c1, m1, m2, c2, d1, d2] =>
    digitChar y1 && digitChar y2 && digitChar y3 && digitChar y4 &&
    c1 == '-' && digitChar m1 && digitChar m2 &&
    c2 == '-' && digitChar d1 && digitChar d2
  | _ => false

/-- Modelled from the spec: `testTime` of the missing `#lib/timeformat` module
accepts exactly valid time-of-day values in the format `hh:mm`. -/
def testTime (s : String) : Bool :=
  match s.data with
  | [h1, h2, c, m1, m2] =>
    digitChar h1 && digitChar h2 && c == ':' && digitChar m1 && digitChar m2 &&
    (digitVal h1 * 10 + digitVal h2 < 24) && (digitVal m1 * 10 + digitVal m2 < 60)
  | _ => false

/-- Parses a validated `yyyy-mm-dd` string into (year, month, day). -/
def dateYMD (s : String) : Nat × Nat × Nat :=
  match s.data with
  | [y1, y2, y3, y4, _, m1, m2, _, d1, d2] =>
    (digitVal y1 * 1000 + digitVal y2 * 100 + digitVal y3 * 10 + digitVal y4,
     digitVal m1 * 10 + digitVal m2,
     digitVal d1 * 10 + digitVal d2)
  | _ => (0, 0, 0)

/-- Parses a validated `hh:mm` string into minutes since midnight. -/
def timeVal (s : String) : Nat :=
  match s.data with
  | [h1, h2, _, m1, m2] =>
    (digitVal h1 * 10 + digitVal h2) * 60 + digitVal m1 * 10 + digitVal m2
  | _ => 0

/-- Order-faithful encoding of a calendar day: strictly monotone in
(year, month, day), mirroring the ordering of `Date.valueOf()`. -/
def dateVal (s : String) : Nat :=
  match dateYMD s with
  | (y, m, d) => (y * 16 + m) * 32 + d

/-- Sakamoto's weekday algorithm, 0 = Sunday; models
`new Date("yyyy-mm-dd").getDay()` for a date-only string (UTC). -/
def sakamotoDay (y m d : Nat) : Nat :=
  let t : List Nat := [0, 3, 2, 5, 0, 3, 5, 1, 4, 6, 2, 4]
  let y := if m < 3 then y - 1 else y
  (y + y / 4 - y / 100 + y / 400 + t.getD (m - 1) 0 + d) % 7

/-- Models `period.getDateAsObject().getDay()`. -/
def getDay (s : String) : Nat :=
  match dateYMD s with
  | (y, m, d) => sakamotoDay y m d

/-! ## Element model (src/unnamed/part_000, `PeriodElement`) -/

/-- `PeriodElement` / `SubstitutedPeriodElement`: tagged union over
(id, name, longName); the substituted variant additionally carries the
original id and original name. -/
inductive PeriodElement where
  | plain (id : Int) (name : String) (longName : String)
  | substituted (id : Int) (name : String) (longName : String)
      (originalId : Int) (originalName : String)
deriving DecidableEq

def PeriodElement.id : PeriodElement → Int
  | .plain i _ _ => i
  | .substituted i _ _ _ _ => i

/-- `isSubstituted()`: `this instanceof SubstitutedPeriodElement`. -/
def PeriodElement.isSubstituted : PeriodElement → Bool
  | .plain _ _ _ => false
  | .substituted _ _ _ _ _ => true

/-- The raw element record of the WebUntis API (`element` resource): id, name,
long name, and optional original id / original name (spec section 6). -/
structure RawElement where
  id : Int
  name : String
  longname : String
  orgid : Option Int
  orgname : Option String
deriving DecidableEq

/-- JS truthiness of an optional number: `undefined` and `0` are falsy. -/
def truthyInt : Option Int → Bool
  | none => false
  | some n => decide (n ≠ 0)

/-- JS truthiness of an optional string: `undefined` and `""` are falsy. -/
def truthyStr : Option String → Bool
  | none => false
  | some s => decide (s ≠ "")

/-- `PeriodElement.from(element)`: substituted variant when
`element.orgid && element.orgname` is truthy, else the plain variant. -/
def PeriodElement.fromRaw (e : RawElement) : PeriodElement :=
  if truthyInt e.orgid && truthyStr e.orgname then
    .substituted e.id e.name e.longname (e.orgid.getD 0) (e.orgname.getD "")
  else
    .plain e.id e.name e.longname

/-! ## Occurrence model (src/unnamed/part_000, `Period`) -/

inductive LessonType where
  | lesson | officeHour | standby | breakSupervision | exam
deriving DecidableEq

inductive LessonCode where
  | regular | cancelled | irregular
deriving DecidableEq

/-- The four element buckets of a period. -/
structure ElementBuckets where
  classes : List PeriodElement
  teachers : List PeriodElement
  subjects : List PeriodElement
  rooms : List PeriodElement
deriving DecidableEq

/-- The comparator `(a, b) => a.id - b.id` used to sort each bucket. -/
def elemLe (a b : PeriodElement) : Prop := a.id ≤ b.id

instance : DecidableRel elemLe := fun a b => inferInstanceAs (Decidable (a.id ≤ b.id))

instance : IsTotal PeriodElement elemLe := ⟨fun a b => Int.le_total a.id b.id⟩

instance : IsTrans PeriodElement elemLe := ⟨fun _ _ _ h h' => le_trans h h'⟩

def sortBucket (l : List PeriodElement) : List PeriodElement := l.insertionSort elemLe

def sortBuckets (e : ElementBuckets) : ElementBuckets :=
  ⟨sortBucket e.classes, sortBucket e.teachers, sortBucket e.subjects, sortBucket e.rooms⟩

structure Period where
  id : Int
  lessonType : LessonType
  lessonCode : LessonCode
  lessonNumber : Int
  lessonText : String
  substitutionText : Option String
  activityType : String
  studentGroup : Option String
  elements : ElementBuckets
  date : String
  startTime : String
  endTime : String
deriving DecidableEq

/-- The body of the `Period` constructor after validation: stores all fields,
sorting each element bucket by element id. -/
def Period.build (id : Int) (lessonType : LessonType) (lessonCode : LessonCode)
    (lessonNumber : Int) (lessonText : String) (substitutionText : Option String)
    (activityType : String) (studentGroup : Option String) (elements : ElementBuckets)
    (date startTime endTime : String) : Period :=
  ⟨id, lessonType, lessonCode, lessonNumber, lessonText, substitutionText,
   activityType, studentGroup, sortBuckets elements, date, startTime, endTime⟩

/-- The `Period` constructor: `testDate(date); testTime(startTime);
testTime(endTime);` throw on malformed input (modelled as `none`), then the
element buckets are sorted by id. -/
def Period.new (id : Int) (lessonType : LessonType) (lessonCode : LessonCode)
    (lessonNumber : Int) (lessonText : String) (substitutionText : Option String)
    (activityType : String) (studentGroup : Option String) (elements : ElementBuckets)
    (date startTime endTime : String) : Option Period :=
  if testDate date && testTime startTime && testTime endTime then
    some (Period.build id lessonType lessonCode lessonNumber lessonText
      substitutionText activityType studentGroup elements date startTime endTime)
  else
    none

/-- `elements.map(e => e.id).join()` for one bucket. -/
def joinIds (l : List PeriodElement) : String :=
  String.intercalate "," (l.map fun e => toString e.id)

/-- `hasTheSameElementsAs(other)`: for every bucket, the comma-joined id
sequences coincide. -/
def Period.hasTheSameElementsAs (p q : Period) : Bool :=
  joinIds p.elements.classes == joinIds q.elements.classes &&
  joinIds p.elements.teachers == joinIds q.elements.teachers &&
  joinIds p.elements.subjects == joinIds q.elements.subjects &&
  joinIds p.elements.rooms == joinIds q.elements.rooms

/-- `Object.values(this.elements).flat()` in declaration order. -/
def Period.allElements (p : Period) : List PeriodElement :=
  p.elements.classes ++ p.elements.teachers ++ p.elements.subjects ++ p.elements.rooms

/-- `deviatesFromSchedule()`: substitution text present, or non-regular code,
or some associated element substituted. -/
def Period.deviatesFromSchedule (p : Period) : Bool :=
  p.substitutionText != none ||
  p.lessonCode != LessonCode.regular ||
  p.allElements.any (·.isSubstituted)

/-- `belongsToSameScheduleAs(other)`: equal lesson number, weekday, start time
string, end time string. -/
def Period.belongsToSameScheduleAs (p q : Period) : Bool :=
  p.lessonNumber == q.lessonNumber &&
  getDay p.date == getDay q.date &&
  p.startTime == q.startTime &&
  p.endTime == q.endTime

/-- `canBeCombinedWith(other)`: equal lesson number, equal date string,
temporal adjacency in either order, equal lesson code, same elements. -/
def Period.canBeCombinedWith (p q : Period) : Bool :=
  p.lessonNumber == q.lessonNumber &&
  p.date == q.date &&
  (p.startTime == q.endTime || q.startTime == p.endTime) &&
  p.lessonCode == q.lessonCode &&
  p.hasTheSameElementsAs q

/-- The value `new Date(date + "T" + startTime).valueOf()` is compared with;
embedded order-faithfully as minutes on the `dateVal` day encoding. -/
def Period.startInstant (p : Period) : Nat :=
  dateVal p.date * 1440 + timeVal p.startTime

/-- `combineWith(other)`: sorts `[this, other]` by start instant (stable, so
`this` is the earlier on ties) and rebuilds via the constructor with all
non-time fields of `this`, the earlier start time and the later end time.
The constructor's validation re-checks `this.date`/start/end strings, which
are fields of already-validated periods; `Period.build` is that constructor
body. -/
def Period.combineWith (p q : Period) : Period :=
  let earlier := if q.startInstant < p.startInstant then q else p
  let later := if q.startInstant < p.startInstant then p else q
  Period.build p.id p.lessonType p.lessonCode p.lessonNumber p.lessonText
    p.substitutionText p.activityType p.studentGroup p.elements p.date
    earlier.startTime later.endTime

/-- Each bucket is sorted ascending by element id. -/
def ElementBuckets.SortedById (e : ElementBuckets) : Prop :=
  e.classes.Sorted elemLe ∧ e.teachers.Sorted elemLe ∧
  e.subjects.Sorted elemLe ∧ e.rooms.Sorted elemLe

instance (e : ElementBuckets) : Decidable e.SortedById := by
  unfold ElementBuckets.SortedById; infer_instance

/-! ## Schedule reconstruction engine

The implementation file of `Schedule` / `ScheduleCollection` is absent from
the sources (only its test suite is present); the engine below is modelled
from the specification (sections 4.3 and 9) and grounded against those tests.
-/

/-- The schedule slot key: (lesson number, weekday, start time, end time). -/
def scheduleKey (p : Period) : Int × Nat × String × String :=
  (p.lessonNumber, getDay p.date, p.startTime, p.endTime)

/-- Modelled from the spec: a `Schedule` holds its ordered occurrence list
together with the changed/unchanged partition (`lessons.unchanged` /
`lessons.changed` in the tests). -/
structure Schedule where
  periods : List Period
  unchanged : List Period
  changed : List Period
deriving DecidableEq

/-- Modelled from the spec: Step A's classification rule. An occurrence is
unchanged when its elements and code exactly match the reference occurrence
and it does not individually deviate; applied to the reference itself this
reduces to the reference not deviating. -/
def matchesRef (ref p : Period) : Bool :=
  p.hasTheSameElementsAs ref && p.lessonCode == ref.lessonCode &&
  !p.deviatesFromSchedule

/-- Modelled from the spec: builds a `Schedule` from a nonempty occurrence
group, classifying every occurrence against the group's first occurrence. -/
def mkSchedule (ps : List Period) : Schedule :=
  match ps with
  | [] => ⟨[], [], []⟩
  | ref :: _ => ⟨ps, ps.filter (matchesRef ref), ps.filter (fun p => !matchesRef ref p)⟩

/-- Modelled from the spec (section 9 design note): one step of the stable
partition keyed by the schedule slot key. Groups are kept as
(first member, later members) in first-seen order; the occurrence joins the
first group whose first member it belongs to the same schedule as, otherwise
a new group is opened at the end. -/
def insertByKey (gs : List (Period × List Period)) (p : Period) :
    List (Period × List Period) :=
  match gs with
  | [] => [(p, [])]
  | (h, t) :: rest =>
    if p.belongsToSameScheduleAs h then (h, t ++ [p]) :: rest
    else (h, t) :: insertByKey rest p

/-- Modelled from the spec: the stable partition of the input into schedule
groups, preserving first-seen order of keys and within-key order. -/
def keyGroups (l : List Period) : List (Period × List Period) :=
  l.foldl insertByKey []

/-- Modelled from the spec: `ScheduleCollection.fromLessons`, the grouping of a
flat chronological occurrence list into classified schedules. The repository's
tests (interleaved slot keys combined across schedules) pin the stable
partition reading; the literal most-recently-opened iteration is
`iterFromLessons` below. -/
def fromLessons (l : List Period) : List Schedule :=
  (keyGroups l).map fun g => mkSchedule (g.1 :: g.2)

/-- Modelled from the spec (section 4.3 Step A, literal reading): one step of
the iteration in which an occurrence joins the most recently opened schedule
exactly when it belongs to the same schedule as that schedule's first member.
Groups are kept most-recently-opened first. -/
def stepIter (st : List (Period × List Period)) (p : Period) :
    List (Period × List Period) :=
  match st with
  | [] => [(p, [])]
  | (h, t) :: rest =>
    if p.belongsToSameScheduleAs h then (h, t ++ [p]) :: rest
    else (p, []) :: (h, t) :: rest

/-- Modelled from the spec: the most-recently-opened-schedule grouping. -/
def iterGroups (l : List Period) : List (Period × List Period) :=
  (l.foldl stepIter []).reverse

/-- Modelled from the spec: `fromLessons` under the literal
most-recently-opened-schedule description of Step A. -/
def iterFromLessons (l : List Period) : List Schedule :=
  (iterGroups l).map fun g => mkSchedule (g.1 :: g.2)

/-- Grouping of a list into maximal contiguous runs of occurrences belonging
to the same schedule as the run's first member (proof device relating the two
Step A descriptions). -/
def runsGo (h : Period) (t : List Period) : List Period → List (Period × List Period)
  | [] => [(h, t)]
  | y :: ys =>
    if y.belongsToSameScheduleAs h then runsGo h (t ++ [y]) ys
    else (h, t) :: runsGo y [] ys

def runs : List Period → List (Period × List Period)
  | [] => []
  | x :: xs => runsGo x [] xs

/-- Scans the tail of a list: `cur` is the key of the current run, `seen` the
keys of completed runs; accepts exactly when occurrences with equal keys are
contiguous. -/
def contigGo (cur : Int × Nat × String × String)
    (seen : List (Int × Nat × String × String)) : List Period → Bool
  | [] => true
  | y :: ys =>
    if scheduleKey y == cur then contigGo cur seen ys
    else !seen.contains (scheduleKey y) && contigGo (scheduleKey y) (cur :: seen) ys

/-- Occurrences sharing a schedule slot key appear contiguously. -/
def contig : List Period → Bool
  | [] => true
  | x :: xs => contigGo (scheduleKey x) [] xs

/-- The input list is in chronological order of start instants. -/
def chronOrdered : List Period → Bool
  | [] => true
  | [_] => true
  | a :: b :: rest => decide (a.startInstant ≤ b.startInstant) && chronOrdered (b :: rest)

/-- Modelled from the spec (section 4.3 Step B): pairs the two schedules'
occurrence lists positionally (the consistent by-date pairing of the spec); a
combinable pairing contributes its `combineWith` result, a failing pairing
retains both occurrences, marked changed (`true`) by the partial-combinability
policy; unpaired leftovers are retained unmarked. -/
def mergeOccurrences : List Period → List Period → List (Period × Bool)
  | a :: as, b :: bs =>
    (if a.canBeCombinedWith b then [(a.combineWith b, false)]
     else [(a, true), (b, true)]) ++ mergeOccurrences as bs
  | as, [] => as.map fun a => (a, false)
  | [], bs => bs.map fun b => (b, false)

/-- Modelled from the spec: the merged schedule, classified against the first
merged occurrence; occurrences force-marked by the partial-combinability
policy are changed regardless of the classification rule. -/
def mkMergedSchedule (ps : List (Period × Bool)) : Schedule :=
  match ps with
  | [] => ⟨[], [], []⟩
  | (ref, _) :: _ =>
    ⟨ps.map (·.1),
     (ps.filter fun pb => !pb.2 && matchesRef ref pb.1).map (·.1),
     (ps.filter fun pb => pb.2 || !matchesRef ref pb.1).map (·.1)⟩

/-- Modelled from the spec: two schedules are eligible to merge when at least
one of their date pairings is combinable; the merge then replaces them with
the merged, reclassified schedule. -/
def combineSchedules (A B : Schedule) : Option Schedule :=
  if (List.zipWith Period.canBeCombinedWith A.periods B.periods).any id then
    some (mkMergedSchedule (mergeOccurrences A.periods B.periods))
  else none

/-- Modelled from the spec: the adjacency scan with the current schedule
carried along; a merged schedule is reconsidered against the next schedule. -/
def combineSeqGo (a : Schedule) : List Schedule → List Schedule
  | [] => [a]
  | b :: rest =>
    match combineSchedules a b with
    | some m => combineSeqGo m rest
    | none => a :: combineSeqGo b rest

/-- Modelled from the spec: `ScheduleCollection.combineSequentialSchedules`,
the scan of the collection for adjacent eligible schedule pairs. -/
def combineSequentialSchedules : List Schedule → List Schedule
  | [] => []
  | a :: rest => combineSeqGo a rest

/-! ## Transport (src/unnamed/part_001, `RPCClient`) -/

structure RpcErrorInfo where
  code : Int
  message : String
deriving DecidableEq

/-- The observable ingredients of one `fetch` response: HTTP status, the RPC
error object of the decoded body (if any), and the parsed `Set-Cookie`
name/value pairs (`getSetCookies(response.headers)`). -/
structure TransportResponse where
  status : Nat
  error : Option RpcErrorInfo
  setCookies : List (String × String)
deriving DecidableEq

inductive RequestOutcome where
  | httpStatusError (got : Nat)
  | rpcFailure (code : Int) (message : String)
  | ok
deriving DecidableEq

/-- `this.cookies[name] = value` on a JS record: updates the first matching
key in place, otherwise appends (insertion order preserved). -/
def setCookie (jar : List (String × String)) (n v : String) :
    List (String × String) :=
  match jar with
  | [] => [(n, v)]
  | (k, w) :: rest => if k == n then (k, v) :: rest else (k, w) :: setCookie rest n v

/-- The `for ... of getSetCookies(...)` loop over a response's cookies. -/
def storeCookies (jar : List (String × String)) (cs : List (String × String)) :
    List (String × String) :=
  cs.foldl (fun j nv => setCookie j nv.1 nv.2) jar

/-- `Object.entries(this.cookies).map(([k, v]) => k + "=" + v).join(";")`. -/
def cookieHeader (jar : List (String × String)) : String :=
  String.intercalate ";" (jar.map fun kv => kv.1 ++ "=" ++ kv.2)

/-- Lookup of a cookie by name in the client's store. -/
def cookieValue (jar : List (String × String)) (n : String) : Option String :=
  (jar.find? fun kv => kv.1 == n).map (·.2)

/-- `RPCClient.request`: sends the Cookie header built from the current jar,
throws `HTTPStatusError` on a non-200 status, throws `RPCError` when the body
carries an error object, and only then stores the response's cookies.
Returns (sent Cookie header, outcome, jar after the call). -/
def request (jar : List (String × String)) (resp : TransportResponse) :
    String × RequestOutcome × List (String × String) :=
  let hdr := cookieHeader jar
  if resp.status ≠ 200 then (hdr, .httpStatusError resp.status, jar)
  else
    match resp.error with
    | some e => (hdr, .rpcFailure e.code e.message, jar)
    | none => (hdr, .ok, storeCookies jar resp.setCookies)

/-! ## Concrete occurrences (the repository's test fixtures) -/

def noElements : ElementBuckets := ⟨[], [], [], []⟩

/-- Weekly fixture, first week: 2022-04-20 12:00 to 13:00. -/
def wk1 : Period :=
  ⟨1, .lesson, .regular, 1, "", none, "", some "1", noElements,
   "2022-04-20", "12:00", "13:00"⟩

/-- Weekly fixture, second week: 2022-04-27 12:00 to 13:00. -/
def wk2 : Period :=
  ⟨2, .lesson, .regular, 1, "", none, "", some "1", noElements,
   "2022-04-27", "12:00", "13:00"⟩

/-- Same-day adjacent fixture: 2022-04-20 13:00 to 14:00. -/
def adj2 : Period :=
  ⟨2, .lesson, .regular, 1, "", none, "", some "1", noElements,
   "2022-04-20", "13:00", "14:00"⟩

/-- Partial-combinability fixture: 2022-04-27 12:00 to 13:00. -/
def pc3 : Period :=
  ⟨3, .lesson, .regular, 1, "", none, "", some "1", noElements,
   "2022-04-27", "12:00", "13:00"⟩

/-- Partial-combinability fixture: 2022-04-27 13:00 to 14:00, cancelled. -/
def pc4 : Period :=
  ⟨4, .lesson, .cancelled, 1, "", none, "", some "1", noElements,
   "2022-04-27", "13:00", "14:00"⟩

/-- Element-mismatch fixture: 2022-04-27 12:00 to 13:00, teacher id 1. -/
def el3 : Period :=
  ⟨3, .lesson, .regular, 1, "", none, "", some "1",
   ⟨[], [.plain 1 "1" ""], [], []⟩, "2022-04-27", "12:00", "13:00"⟩

/-- Element-mismatch fixture: 2022-04-27 13:00 to 14:00, teacher id 2. -/
def el4 : Period :=
  ⟨4, .lesson, .regular, 1, "", none, "", some "1",
   ⟨[], [.plain 2 "2" ""], [], []⟩, "2022-04-27", "13:00", "14:00"⟩

/-- Same-day pair with distinct ids; the receiver starts later. -/
def combA : Period :=
  ⟨1, .lesson, .regular, 1, "", none, "", none, noElements,
   "2022-04-20", "13:00", "14:00"⟩

def combB : Period :=
  ⟨2, .lesson, .regular, 1, "", none, "", none, noElements,
   "2022-04-20", "12:00", "13:00"⟩

/-- Unsorted element input for the constructor. -/
def unsortedBuckets : ElementBuckets :=
  ⟨[.plain 2 "b" "B", .plain 1 "a" "A"], [.plain 5 "e" "E", .plain 3 "c" "C"], [], []⟩

/-! ## Helper lemmas -/

theorem sortBuckets_eq_of_sorted (e : ElementBuckets) (h : e.SortedById) :
    sortBuckets e = e := by
  obtain ⟨h1, h2, h3, h4⟩ := h
  simp [sortBuckets, sortBucket, h1.insertionSort_eq, h2.insertionSort_eq,
    h3.insertionSort_eq, h4.insertionSort_eq]

theorem sortBuckets_sortedById (e : ElementBuckets) :
    (sortBuckets e).SortedById :=
  ⟨List.sorted_insertionSort elemLe _, List.sorted_insertionSort elemLe _,
   List.sorted_insertionSort elemLe _, List.sorted_insertionSort elemLe _⟩

theorem hasTheSameElementsAs_symm (p q : Period) :
    p.hasTheSameElementsAs q = q.hasTheSameElementsAs p := by
  rw [Bool.eq_iff_iff]
  simp only [Period.hasTheSameElementsAs, Bool.and_eq_true, beq_iff_eq]
  constructor <;> rintro ⟨⟨⟨h1, h2⟩, h3⟩, h4⟩ <;> exact ⟨⟨⟨h1.symm, h2.symm⟩, h3.symm⟩, h4.symm⟩

/-! ## Claim C4 -/

/-- C4: `canBeCombinedWith` holds exactly when the lesson numbers are equal,
the date strings are equal, one occurrence's start time string equals the
other's end time string (in either order), the lesson codes are equal and
`hasTheSameElementsAs` holds; consequently the predicate is symmetric. -/
theorem C4_canBeCombinedWith_characterization (p q : Period) :
    (p.canBeCombinedWith q = true ↔
      (p.lessonNumber = q.lessonNumber ∧ p.date = q.date ∧
       (p.startTime = q.endTime ∨ q.startTime = p.endTime) ∧
       p.lessonCode = q.lessonCode ∧ p.hasTheSameElementsAs q = true)) ∧
    p.canBeCombinedWith q = q.canBeCombinedWith p := by
  have hiff : ∀ r s : Period, r.canBeCombinedWith s = true ↔
      (r.lessonNumber = s.lessonNumber ∧ r.date = s.date ∧
       (r.startTime = s.endTime ∨ s.startTime = r.endTime) ∧
       r.lessonCode = s.lessonCode ∧ r.hasTheSameElementsAs s = true) := by
    intro r s
    simp only [Period.canBeCombinedWith, Bool.and_eq_true, Bool.or_eq_true, beq_iff_eq]
    tauto
  refine ⟨hiff p q, ?_⟩
  rw [Bool.eq_iff_iff, hiff p q, hiff q p, hasTheSameElementsAs_symm p q]
  constructor <;> rintro ⟨h1, h2, h3, h4, h5⟩ <;>
    exact ⟨h1.symm, h2.symm, h3.symm, h4.symm, h5⟩

/-! ## Claim C5 -/

/-- The period the constructor accepts despite its start time lying after its
end time. -/
def inverted : Period :=
  Period.build 1 .lesson .regular 1 "" none "" none noElements
    "2022-04-20" "13:00" "12:00"

/-- C5 counterexample: construction succeeds on well-formatted date and time
strings with the start time after the end time, so a successfully constructed
occurrence need not satisfy start strictly before end. -/
theorem C5_counterexample :
    Period.new 1 .lesson .regular 1 "" none "" none noElements
      "2022-04-20" "13:00" "12:00" = some inverted ∧
    ¬ timeVal inverted.startTime < timeVal inverted.endTime := by decide

/-- C5 (amended): construction fails exactly when the date string or either
time string is malformed; no relation between the start and end times is
enforced. -/
theorem C5_new_none_iff_malformed (id : Int) (lt : LessonType) (lc : LessonCode)
    (ln : Int) (txt : String) (st : Option String) (act : String)
    (sg : Option String) (elements : ElementBuckets) (date s e : String) :
    Period.new id lt lc ln txt st act sg elements date s e = none ↔
      ¬(testDate date = true ∧ testTime s = true ∧ testTime e = true) := by
  unfold Period.new
  split <;> rename_i h <;> simp_all [Bool.and_eq_true]

/-! ## Claim C7 -/

/-- C7 counterexample: a raw element whose original-id field is present with
value `0` and whose original-name field is present; `PeriodElement.from`
nevertheless produces the plain variant because `0` is falsy in the
`orgid && orgname` test. -/
theorem C7_counterexample :
    (RawElement.mk 1 "a" "A" (some 0) (some "B")).orgid.isSome = true ∧
    (RawElement.mk 1 "a" "A" (some 0) (some "B")).orgname.isSome = true ∧
    PeriodElement.fromRaw (RawElement.mk 1 "a" "A" (some 0) (some "B")) =
      .plain 1 "a" "A" := by decide

/-- C7 (amended): `PeriodElement.from` produces the substituted variant iff
the original-id field is present with a nonzero value and the original-name
field is present and nonempty (JS truthiness of `orgid && orgname`); and
`isSubstituted` is true exactly for the substituted variant. -/
theorem C7_fromRaw_substituted_iff (e : RawElement) :
    ((PeriodElement.fromRaw e).isSubstituted = true ↔
      ((∃ n, e.orgid = some n ∧ n ≠ 0) ∧ ∃ s, e.orgname = some s ∧ s ≠ "")) ∧
    (∀ el : PeriodElement, el.isSubstituted = true ↔
      ∃ i nm l oi onm, el = .substituted i nm l oi onm) := by
  constructor
  · rcases e with ⟨i, nm, l, oi, onm⟩
    rcases oi with _ | a <;> rcases onm with _ | s <;>
      simp [PeriodElement.fromRaw, truthyInt, truthyStr, PeriodElement.isSubstituted]
    by_cases ha : a = 0 <;> by_cases hs : s = "" <;>
      simp [ha, hs, PeriodElement.isSubstituted]
  · intro el
    cases el <;> simp [PeriodElement.isSubstituted]

/-! ## Claim C8 -/

/-- C8: every occurrence produced by the constructor has each of its four
element buckets sorted ascending by element id, whatever the input order. -/
theorem C8_buckets_sorted (id : Int) (lt : LessonType) (lc : LessonCode)
    (ln : Int) (txt : String) (st : Option String) (act : String)
    (sg : Option String) (elements : ElementBuckets) (date s e : String)
    (p : Period)
    (h : Period.new id lt lc ln txt st act sg elements date s e = some p) :
    p.elements.SortedById := by
  unfold Period.new at h
  split at h
  · cases h
    exact sortBuckets_sortedById elements
  · cases h

/-- C8 witness: the constructor applied to unsorted buckets. -/
theorem C8_buckets_sorted_witness :
    (Period.build 1 .lesson .regular 1 "" none "" none unsortedBuckets
      "2022-04-20" "12:00" "13:00").elements.SortedById :=
  C8_buckets_sorted 1 .lesson .regular 1 "" none "" none unsortedBuckets
    "2022-04-20" "12:00" "13:00" _ (by decide)

/-! ## Claim C10 -/

/-- C10: each stored element bucket of a constructed occurrence is a
permutation of the corresponding input bucket: no element is added, removed
or altered by construction. -/
theorem C10_buckets_perm (id : Int) (lt : LessonType) (lc : LessonCode)
    (ln : Int) (txt : String) (st : Option String) (act : String)
    (sg : Option String) (elements : ElementBuckets) (date s e : String)
    (p : Period)
    (h : Period.new id lt lc ln txt st act sg elements date s e = some p) :
    p.elements.classes.Perm elements.classes ∧
    p.elements.teachers.Perm elements.teachers ∧
    p.elements.subjects.Perm elements.subjects ∧
    p.elements.rooms.Perm elements.rooms := by
  unfold Period.new at h
  split at h
  · cases h
    exact ⟨List.perm_insertionSort elemLe _, List.perm_insertionSort elemLe _,
      List.perm_insertionSort elemLe _, List.perm_insertionSort elemLe _⟩
  · cases h

/-- C10 witness: the constructor applied to unsorted buckets permutes and
never drops or invents elements. -/
theorem C10_buckets_perm_witness :
    (Period.build 1 .lesson .regular 1 "" none "" none unsortedBuckets
      "2022-04-20" "12:00" "13:00").elements.classes.Perm unsortedBuckets.classes ∧
    (Period.build 1 .lesson .regular 1 "" none "" none unsortedBuckets
      "2022-04-20" "12:00" "13:00").elements.teachers.Perm unsortedBuckets.teachers ∧
    (Period.build 1 .lesson .regular 1 "" none "" none unsortedBuckets
      "2022-04-20" "12:00" "13:00").elements.subjects.Perm unsortedBuckets.subjects ∧
    (Period.build 1 .lesson .regular 1 "" none "" none unsortedBuckets
      "2022-04-20" "12:00" "13:00").elements.rooms.Perm unsortedBuckets.rooms :=
  C10_buckets_perm 1 .lesson .regular 1 "" none "" none unsortedBuckets
    "2022-04-20" "12:00" "13:00" _ (by decide)

/-! ## Claim C1 -/

/-- C1 counterexample: `combA` and `combB` are combinable and `combB` is the
earlier of the two, yet `combA.combineWith(combB)` is not the earlier
occurrence with its end time replaced: its id is the receiver's, not the
earlier occurrence's. -/
theorem C1_counterexample :
    combA.canBeCombinedWith combB = true ∧
    combB.startInstant < combA.startInstant ∧
    combA.combineWith combB ≠ { combB with endTime := combA.endTime } ∧
    (combA.combineWith combB).id ≠ combB.id := by decide

/-- C1 (amended): for occurrences with sorted element buckets (as every
constructed occurrence has), `a.combineWith(b)` is identical to the receiver
`a` in every field except that its start time becomes the earlier occurrence's
start time and its end time becomes the later occurrence's end time, where
earlier/later is decided by the full date plus start-time instant (the
receiver on ties); in particular the result spans from the earlier
occurrence's start to the later occurrence's end. -/
theorem C1_combineWith_fields (p q : Period)
    (hcomb : p.canBeCombinedWith q = true)
    (hsorted : p.elements.SortedById) :
    p.combineWith q =
      { p with
        startTime := if q.startInstant < p.startInstant then q.startTime else p.startTime,
        endTime := if q.startInstant < p.startInstant then p.endTime else q.endTime } := by
  have hs := sortBuckets_eq_of_sorted p.elements hsorted
  cases p
  simp only [Period.combineWith, Period.build] at *
  split <;> simp_all

/-- C1 witness: combining the later receiver `combA` with the earlier `combB`
spans the union of the two ranges while keeping the receiver's fields. -/
theorem C1_combineWith_fields_witness :
    combA.combineWith combB =
      { combA with
        startTime := if combB.startInstant < combA.startInstant then combB.startTime else combA.startTime,
        endTime := if combB.startInstant < combA.startInstant then combA.endTime else combB.endTime } :=
  C1_combineWith_fields combA combB (by decide) (by decide)

/-! ## Claim C9 -/

/-- A non-success response that sets a cookie. -/
def respErr : TransportResponse := ⟨404, none, [("JSESSIONID", "abc")]⟩

/-- A success response with no cookies. -/
def respOk : TransportResponse := ⟨200, none, []⟩

/-- C9 counterexample: a response with a non-success status that sets a cookie
is not captured — the call throws before the cookie store is updated, the
store stays empty and the next request's Cookie header does not carry the
cookie. -/
theorem C9_counterexample :
    respErr.setCookies = [("JSESSIONID", "abc")] ∧
    (request [] respErr).2.2 = [] ∧
    cookieValue (request [] respErr).2.2 "JSESSIONID" = none ∧
    (request (request [] respErr).2.2 respOk).1 = "" := by decide

theorem cookieValue_setCookie (jar : List (String × String)) (n v : String) :
    cookieValue (setCookie jar n v) n = some v := by
  induction jar with
  | nil => simp [setCookie, cookieValue, List.find?]
  | cons kv rest ih =>
    obtain ⟨k, w⟩ := kv
    by_cases h : k = n
    · simp [setCookie, cookieValue, List.find?, h]
    · simpa [setCookie, cookieValue, List.find?, h] using ih

/-- C9 (amended): for a successful response (HTTP 200 and no RPC error
object), the response's cookies are stored into the client's cookie store and
the next request from the same client sends the Cookie header built from that
updated store; a single set cookie is retrievable from the store by name. On
non-success or RPC-error responses the call throws before the store is
updated. -/
theorem C9_cookies_on_success (jar : List (String × String))
    (r1 r2 : TransportResponse)
    (h200 : r1.status = 200) (herr : r1.error = none) :
    (request jar r1).2.2 = storeCookies jar r1.setCookies ∧
    (request (request jar r1).2.2 r2).1 =
      cookieHeader (storeCookies jar r1.setCookies) ∧
    (∀ n v, r1.setCookies = [(n, v)] →
      cookieValue (request jar r1).2.2 n = some v) := by
  have hfst : ∀ (j : List (String × String)) (r : TransportResponse),
      (request j r).1 = cookieHeader j := by
    intro j r
    simp only [request]
    split
    · rfl
    · split <;> rfl
  have hreq : (request jar r1).2.2 = storeCookies jar r1.setCookies := by
    simp [request, h200, herr]
  refine ⟨hreq, by rw [hfst, hreq], ?_⟩
  intro n v hcs
  rw [hreq, hcs]
  simpa [storeCookies] using cookieValue_setCookie jar n v

/-- A success response that sets one cookie. -/
def respSet : TransportResponse := ⟨200, none, [("JSESSIONID", "abc")]⟩

/-- C9 witness: a successful response's cookie is stored and replayed on the
following request. -/
theorem C9_cookies_on_success_witness :
    (request [] respSet).2.2 = storeCookies [] respSet.setCookies ∧
    (request (request [] respSet).2.2 respOk).1 =
      cookieHeader (storeCookies [] respSet.setCookies) ∧
    (∀ n v, respSet.setCookies = [(n, v)] →
      cookieValue (request [] respSet).2.2 n = some v) :=
  C9_cookies_on_success [] respSet respOk (by decide) (by decide)

/-! ## Claim C2 -/

theorem foldl_insertByKey_all_same (x : Period) (xs : List Period) :
    ∀ t : List Period, (∀ p ∈ xs, p.belongsToSameScheduleAs x = true) →
    List.foldl insertByKey [(x, t)] xs = [(x, t ++ xs)] := by
  induction xs with
  | nil => intro t _; simp
  | cons y ys ih =>
    intro t h
    have hy : y.belongsToSameScheduleAs x = true := h y (List.mem_cons_self y ys)
    have hstep : insertByKey [(x, t)] y = [(x, t ++ [y])] := by
      simp [insertByKey, hy]
    rw [List.foldl_cons, hstep, ih (t ++ [y]) (fun p hp => h p (List.mem_cons_of_mem y hp))]
    simp

/-- C2: when every occurrence of a nonempty input shares the first
occurrence's lesson number, weekday, start time and end time, `fromLessons`
produces exactly one Schedule whose occurrence list is the input, in input
order. -/
theorem C2_fromLessons_single_schedule (x : Period) (xs : List Period)
    (h : ∀ p ∈ x :: xs, p.lessonNumber = x.lessonNumber ∧
      getDay p.date = getDay x.date ∧ p.startTime = x.startTime ∧
      p.endTime = x.endTime) :
    fromLessons (x :: xs) = [mkSchedule (x :: xs)] ∧
    (mkSchedule (x :: xs)).periods = x :: xs := by
  have hbelongs : ∀ p ∈ xs, p.belongsToSameScheduleAs x = true := by
    intro p hp
    obtain ⟨h1, h2, h3, h4⟩ := h p (List.mem_cons_of_mem x hp)
    simp [Period.belongsToSameScheduleAs, h1, h2, h3, h4]
  constructor
  · have hk : keyGroups (x :: xs) = [(x, xs)] := by
      unfold keyGroups
      rw [show List.foldl insertByKey [] (x :: xs) =
        List.foldl insertByKey [(x, [])] xs from rfl]
      simpa using foldl_insertByKey_all_same x xs [] hbelongs
    simp [fromLessons, hk]
  · cases xs <;> rfl

/-- C2 witness: the repository's weekly fixture groups into one schedule
containing both occurrences in order. -/
theorem C2_fromLessons_single_schedule_witness :
    fromLessons [wk1, wk2] = [mkSchedule [wk1, wk2]] ∧
    (mkSchedule [wk1, wk2]).periods = [wk1, wk2] :=
  C2_fromLessons_single_schedule wk1 [wk2] (by decide)

/-! ## Claim C6 -/

theorem belongs_iff_key (p q : Period) :
    p.belongsToSameScheduleAs q = true ↔ scheduleKey p = scheduleKey q := by
  simp [Period.belongsToSameScheduleAs, scheduleKey, Bool.and_eq_true, beq_iff_eq,
    Prod.ext_iff, and_assoc]

theorem belongs_true_of_key {p q : Period} (h : scheduleKey p = scheduleKey q) :
    p.belongsToSameScheduleAs q = true :=
  (belongs_iff_key p q).2 h

theorem belongs_false_of_key {p q : Period} (h : ¬ scheduleKey p = scheduleKey q) :
    p.belongsToSameScheduleAs q = false := by
  cases hb : p.belongsToSameScheduleAs q
  · rfl
  · exact absurd ((belongs_iff_key p q).1 hb) h

theorem foldl_stepIter_runsGo (l : List Period) :
    ∀ (h : Period) (t : List Period) (st : List (Period × List Period)),
    (List.foldl stepIter ((h, t) :: st) l).reverse = st.reverse ++ runsGo h t l := by
  induction l with
  | nil => intro h t st; simp [runsGo]
  | cons y ys ih =>
    intro h t st
    cases hb : y.belongsToSameScheduleAs h
    · rw [List.foldl_cons, show stepIter ((h, t) :: st) y = (y, []) :: (h, t) :: st by
        simp [stepIter, hb]]
      rw [ih y [] ((h, t) :: st)]
      simp [runsGo, hb, List.append_assoc]
    · rw [List.foldl_cons, show stepIter ((h, t) :: st) y = (h, t ++ [y]) :: st by
        simp [stepIter, hb]]
      rw [ih h (t ++ [y]) st]
      simp [runsGo, hb]

theorem iterGroups_eq_runs (l : List Period) : iterGroups l = runs l := by
  cases l with
  | nil => rfl
  | cons x xs =>
    unfold iterGroups runs
    rw [show List.foldl stepIter [] (x :: xs) =
      List.foldl stepIter [(x, [])] xs from rfl]
    simpa using foldl_stepIter_runsGo xs x [] []

theorem insertByKey_no_match (p : Period) :
    ∀ gs : List (Period × List Period),
    (∀ g ∈ gs, p.belongsToSameScheduleAs g.1 = false) →
    insertByKey gs p = gs ++ [(p, [])] := by
  intro gs
  induction gs with
  | nil => intro _; rfl
  | cons g rest ih =>
    intro h
    obtain ⟨gh, gt⟩ := g
    obtain ⟨hh, ht⟩ := List.forall_mem_cons.1 h
    simp only [insertByKey, hh, Bool.false_eq_true, if_false, ih ht]
    simp

theorem insertByKey_last (p h : Period) (t : List Period) :
    ∀ gs : List (Period × List Period),
    (∀ g ∈ gs, p.belongsToSameScheduleAs g.1 = false) →
    p.belongsToSameScheduleAs h = true →
    insertByKey (gs ++ [(h, t)]) p = gs ++ [(h, t ++ [p])] := by
  intro gs
  induction gs with
  | nil => intro _ hy; simp [insertByKey, hy]
  | cons g rest ih =>
    intro hno hy
    obtain ⟨gh, gt⟩ := g
    obtain ⟨hh, ht⟩ := List.forall_mem_cons.1 hno
    have hout : insertByKey (((gh, gt) :: rest) ++ [(h, t)]) p =
        (gh, gt) :: insertByKey (rest ++ [(h, t)]) p := by
      simp [insertByKey, hh]
    rw [hout, ih ht hy, List.cons_append]

theorem runsGo_cons_of_belongs {y h : Period} (t ys : List Period)
    (hb : y.belongsToSameScheduleAs h = true) :
    runsGo h t (y :: ys) = runsGo h (t ++ [y]) ys := by
  conv_lhs => simp only [runsGo]
  rw [if_pos hb]

theorem runsGo_cons_of_not_belongs {y h : Period} (t ys : List Period)
    (hb : y.belongsToSameScheduleAs h = false) :
    runsGo h t (y :: ys) = (h, t) :: runsGo y [] ys := by
  conv_lhs => simp only [runsGo]
  rw [if_neg (by simp [hb])]

theorem contigGo_congr (l : List Period) :
    ∀ (cur : Int × Nat × String × String)
      (s1 s2 : List (Int × Nat × String × String)),
    (∀ k, k ∈ s1 ↔ k ∈ s2) →
    contigGo cur s1 l = contigGo cur s2 l := by
  induction l with
  | nil => intros; rfl
  | cons y ys ih =>
    intro cur s1 s2 hs
    unfold contigGo
    by_cases hk : (scheduleKey y == cur) = true
    · rw [if_pos hk, if_pos hk, ih cur s1 s2 hs]
    · have h1 : s1.contains (scheduleKey y) = s2.contains (scheduleKey y) := by
        simp [hs (scheduleKey y)]
      rw [if_neg hk, if_neg hk, h1,
        ih (scheduleKey y) (cur :: s1) (cur :: s2) (fun k => by simp [hs k])]

theorem foldl_insertByKey_runsGo (l : List Period) :
    ∀ (h : Period) (t : List Period) (gs : List (Period × List Period)),
    contigGo (scheduleKey h) (gs.map fun g => scheduleKey g.1) l = true →
    (∀ g ∈ gs, scheduleKey g.1 ≠ scheduleKey h) →
    List.foldl insertByKey (gs ++ [(h, t)]) l = gs ++ runsGo h t l := by
  induction l with
  | nil => intro h t gs _ _; simp [runsGo]
  | cons y ys ih =>
    intro h t gs hc hne
    by_cases hk : scheduleKey y = scheduleKey h
    · have hc' : contigGo (scheduleKey h) (gs.map fun g => scheduleKey g.1) ys = true := by
        unfold contigGo at hc
        rwa [if_pos (beq_iff_eq.2 hk)] at hc
      have hstep : insertByKey (gs ++ [(h, t)]) y = gs ++ [(h, t ++ [y])] := by
        refine insertByKey_last y h t gs (fun g hg => belongs_false_of_key ?_)
          (belongs_true_of_key hk)
        intro he
        exact hne g hg (he ▸ hk)
      rw [List.foldl_cons, hstep, ih h (t ++ [y]) gs hc' hne,
        runsGo_cons_of_belongs t ys (belongs_true_of_key hk)]
    · unfold contigGo at hc
      rw [if_neg (fun hb => hk (beq_iff_eq.1 hb)), Bool.and_eq_true] at hc
      obtain ⟨hnotseen, hc'⟩ := hc
      have hnotin : ∀ g ∈ gs, scheduleKey g.1 ≠ scheduleKey y := by
        intro g hg he
        have hmem : scheduleKey y ∈ gs.map fun g => scheduleKey g.1 :=
          List.mem_map.2 ⟨g, hg, he⟩
        simp [hmem] at hnotseen
      have hstep : insertByKey (gs ++ [(h, t)]) y = (gs ++ [(h, t)]) ++ [(y, [])] := by
        apply insertByKey_no_match
        intro g hg
        rcases List.mem_append.1 hg with hg1 | hg2
        · exact belongs_false_of_key (fun he => hnotin g hg1 (he.symm))
        · have hgeq : g = (h, t) := by simpa using hg2
          subst hgeq
          exact belongs_false_of_key hk
      have hcnew : contigGo (scheduleKey y)
          ((gs ++ [(h, t)]).map fun g => scheduleKey g.1) ys = true := by
        rw [contigGo_congr ys (scheduleKey y)
          ((gs ++ [(h, t)]).map fun g => scheduleKey g.1)
          (scheduleKey h :: gs.map fun g => scheduleKey g.1)
          (fun k => by simp [or_comm])]
        exact hc'
      have hnenew : ∀ g ∈ gs ++ [(h, t)], scheduleKey g.1 ≠ scheduleKey y := by
        intro g hg
        rcases List.mem_append.1 hg with hg1 | hg2
        · exact hnotin g hg1
        · have hgeq : g = (h, t) := by simpa using hg2
          subst hgeq
          exact fun he => hk he.symm
      rw [List.foldl_cons, hstep, ih y [] (gs ++ [(h, t)]) hcnew hnenew,
        runsGo_cons_of_not_belongs t ys (belongs_false_of_key hk)]
      simp [List.append_assoc]

theorem keyGroups_eq_runs (l : List Period) (h : contig l = true) :
    keyGroups l = runs l := by
  cases l with
  | nil => rfl
  | cons x xs =>
    unfold keyGroups runs
    rw [show List.foldl insertByKey [] (x :: xs) =
      List.foldl insertByKey ([] ++ [(x, [])]) xs from rfl]
    rw [foldl_insertByKey_runsGo xs x [] [] h (by simp)]
    simp

/-- C6 counterexample: a chronologically ordered input (the repository's
partial-combinability fixture) on which the most-recently-opened-schedule
iteration produces four schedules while the stable partition by slot key
produces two, so the two Step A descriptions are not equivalent for every
chronologically ordered list. -/
theorem C6_counterexample :
    chronOrdered [wk1, adj2, pc3, pc4] = true ∧
    iterFromLessons [wk1, adj2, pc3, pc4] ≠ fromLessons [wk1, adj2, pc3, pc4] ∧
    (iterFromLessons [wk1, adj2, pc3, pc4]).length = 4 ∧
    (fromLessons [wk1, adj2, pc3, pc4]).length = 2 := by decide

/-- C6 (amended): the two descriptions of Step A coincide exactly on inputs in
which occurrences sharing a schedule slot key appear contiguously; for such
lists the most-recently-opened-schedule iteration produces the same schedules,
in the same order, as the stable partition keyed by (lesson number, weekday,
start time, end time). Chronological order alone does not guarantee this. -/
theorem C6_grouping_equivalence (l : List Period) (h : contig l = true) :
    iterFromLessons l = fromLessons l := by
  unfold iterFromLessons fromLessons
  rw [iterGroups_eq_runs, keyGroups_eq_runs l h]

/-- C6 witness: on a contiguous two-key input both descriptions agree. -/
theorem C6_grouping_equivalence_witness :
    iterFromLessons [wk1, adj2] = fromLessons [wk1, adj2] :=
  C6_grouping_equivalence [wk1, adj2] (by decide)

/-! ## Claim C3 -/

/-- A deviation-free occurrence agreeing with the reference occurrence `ref`:
same elements, regular code, no substitution text, no substituted element,
sorted buckets (as every constructed occurrence has). -/
def cleanPeriod (ref p : Period) : Prop :=
  p.hasTheSameElementsAs ref = true ∧
  p.lessonCode = LessonCode.regular ∧
  p.substitutionText = none ∧
  p.allElements.any (·.isSubstituted) = false ∧
  p.elements.SortedById

instance (ref p : Period) : Decidable (cleanPeriod ref p) := by
  unfold cleanPeriod; infer_instance

theorem combineWith_elements (p q : Period) :
    (p.combineWith q).elements = sortBuckets p.elements := rfl

theorem combineWith_lessonCode (p q : Period) :
    (p.combineWith q).lessonCode = p.lessonCode := rfl

theorem combineWith_substitutionText (p q : Period) :
    (p.combineWith q).substitutionText = p.substitutionText := rfl

/-- A combined occurrence built from a clean week matches the merged
schedule's reference, itself the combination of a clean first pairing. -/
theorem matchesRef_combined (a1 b1 x y : Period)
    (h1 : cleanPeriod a1 a1) (hx : cleanPeriod a1 x) :
    matchesRef (a1.combineWith b1) (x.combineWith y) = true := by
  obtain ⟨hx1, hx2, hx3, hx4, hx5⟩ := hx
  obtain ⟨h11, h12, h13, h14, h15⟩ := h1
  have hce : (x.combineWith y).elements = x.elements := by
    rw [combineWith_elements, sortBuckets_eq_of_sorted _ hx5]
  have hre : (a1.combineWith b1).elements = a1.elements := by
    rw [combineWith_elements, sortBuckets_eq_of_sorted _ h15]
  have hsame : (x.combineWith y).hasTheSameElementsAs (a1.combineWith b1) = true := by
    simp only [Period.hasTheSameElementsAs, hce, hre]
    simpa only [Period.hasTheSameElementsAs] using hx1
  have hdev : (x.combineWith y).deviatesFromSchedule = false := by
    have hany : ((x.combineWith y).allElements.any fun e => e.isSubstituted) = false := by
      simpa only [Period.allElements, hce] using
        (by simpa only [Period.allElements] using hx4)
    simp [Period.deviatesFromSchedule, combineWith_substitutionText, hx3,
      combineWith_lessonCode, hx2, hany]
  simp [matchesRef, hsame, hdev, combineWith_lessonCode, hx2, h12]

theorem mergeOccurrences_cons (a b : Period) (as bs : List Period) :
    mergeOccurrences (a :: as) (b :: bs) =
      (if a.canBeCombinedWith b then [(a.combineWith b, false)]
       else [(a, true), (b, true)]) ++ mergeOccurrences as bs := rfl

theorem mergeOccurrences_append (as2 bs2 : List Period) :
    ∀ as1 bs1 : List Period, as1.length = bs1.length →
    mergeOccurrences (as1 ++ as2) (bs1 ++ bs2) =
      mergeOccurrences as1 bs1 ++ mergeOccurrences as2 bs2 := by
  intro as1
  induction as1 with
  | nil =>
    intro bs1 hlen
    have hb : bs1 = [] := List.eq_nil_of_length_eq_zero hlen.symm
    subst hb
    simp [mergeOccurrences]
  | cons a as ih =>
    intro bs1 hlen
    cases bs1 with
    | nil => simp at hlen
    | cons b bs =>
      simp only [List.cons_append, mergeOccurrences_cons]
      rw [ih bs (by simpa using hlen)]
      simp [List.append_assoc]

theorem mergeOccurrences_combinable :
    ∀ as bs : List Period, as.length = bs.length →
    (∀ ab ∈ List.zip as bs, ab.1.canBeCombinedWith ab.2 = true) →
    mergeOccurrences as bs =
      (List.zip as bs).map fun ab => (ab.1.combineWith ab.2, false) := by
  intro as
  induction as with
  | nil =>
    intro bs hlen _
    have hb : bs = [] := List.eq_nil_of_length_eq_zero hlen.symm
    subst hb
    rfl
  | cons a as ih =>
    intro bs hlen hcomb
    cases bs with
    | nil => simp at hlen
    | cons b bs =>
      have hab : a.canBeCombinedWith b = true :=
        hcomb (a, b) (by rw [List.zip_cons_cons]; exact List.mem_cons_self _ _)
      rw [mergeOccurrences_cons, if_pos hab,
        ih bs (by simpa using hlen)
          (fun ab h => hcomb ab (by rw [List.zip_cons_cons]; exact List.mem_cons_of_mem _ h)),
        List.zip_cons_cons, List.map_cons]
      rfl

theorem mergeOccurrences_fail_mem :
    ∀ (as bs : List Period) (ab : Period × Period), ab ∈ List.zip as bs →
    ab.1.canBeCombinedWith ab.2 = false →
    (ab.1, true) ∈ mergeOccurrences as bs ∧ (ab.2, true) ∈ mergeOccurrences as bs := by
  intro as
  induction as with
  | nil => intro bs ab h _; simp [List.zip] at h
  | cons a as ih =>
    intro bs ab hmem hfail
    cases bs with
    | nil => simp [List.zip] at hmem
    | cons b bs =>
      rw [List.zip_cons_cons] at hmem
      rw [mergeOccurrences_cons]
      rcases List.mem_cons.1 hmem with habeq | hmem'
      · subst habeq
        rw [if_neg (by simp [hfail])]
        exact ⟨by simp, by simp⟩
      · obtain ⟨m1, m2⟩ := ih bs ab hmem' hfail
        exact ⟨List.mem_append_right _ m1, List.mem_append_right _ m2⟩

theorem mergeOccurrences_comb_mem :
    ∀ (as bs : List Period) (ab : Period × Period), ab ∈ List.zip as bs →
    ab.1.canBeCombinedWith ab.2 = true →
    (ab.1.combineWith ab.2, false) ∈ mergeOccurrences as bs := by
  intro as
  induction as with
  | nil => intro bs ab h _; simp [List.zip] at h
  | cons a as ih =>
    intro bs ab hmem hcomb
    cases bs with
    | nil => simp [List.zip] at hmem
    | cons b bs =>
      rw [List.zip_cons_cons] at hmem
      rw [mergeOccurrences_cons]
      rcases List.mem_cons.1 hmem with habeq | hmem'
      · subst habeq
        rw [if_pos hcomb]
        simp
      · exact List.mem_append_right _ (ih bs ab hmem' hcomb)

theorem mkMergedSchedule_mem_periods {ps : List (Period × Bool)} {x : Period}
    {f : Bool} (hmem : (x, f) ∈ ps) : x ∈ (mkMergedSchedule ps).periods := by
  cases ps with
  | nil => simp at hmem
  | cons hd tl =>
    obtain ⟨r, fb⟩ := hd
    simp only [mkMergedSchedule]
    exact List.mem_map.2 ⟨(x, f), hmem, rfl⟩

theorem mkMergedSchedule_mem_changed {ps : List (Period × Bool)} {x : Period}
    (hmem : (x, true) ∈ ps) : x ∈ (mkMergedSchedule ps).changed := by
  cases ps with
  | nil => simp at hmem
  | cons hd tl =>
    obtain ⟨r, fb⟩ := hd
    simp only [mkMergedSchedule]
    exact List.mem_map.2 ⟨(x, true), List.mem_filter.2 ⟨hmem, by simp⟩, rfl⟩

theorem filter_combined_nil (ref : Period) (l : List (Period × Period))
    (h : ∀ ab ∈ l, matchesRef ref (ab.1.combineWith ab.2) = true) :
    (l.map fun ab => (ab.1.combineWith ab.2, false)).filter
      (fun pb => pb.2 || !matchesRef ref pb.1) = [] := by
  induction l with
  | nil => rfl
  | cons ab tl ih =>
    simp only [List.map_cons, List.filter_cons]
    rw [if_neg (by simp [h ab (List.mem_cons_self _ _)])]
    exact ih fun ab' h' => h ab' (List.mem_cons_of_mem _ h')

theorem combineSeq_pair (A B : Schedule)
    (h : (List.zipWith Period.canBeCombinedWith A.periods B.periods).any id = true) :
    combineSequentialSchedules [A, B] =
      [mkMergedSchedule (mergeOccurrences A.periods B.periods)] := by
  simp [combineSequentialSchedules, combineSeqGo, combineSchedules, h]

/-- C3: for two schedules with at least one combinable date pairing,
`combineSequentialSchedules` merges them into exactly one Schedule; every
pairing failing `canBeCombinedWith` has both occurrences retained in the
merged occurrence list and both marked changed; and when exactly one pairing
fails while the combinable pairings are deviation-free weeks of the first
pairing's shape, the changed list is exactly the two occurrences of the
failing pairing. -/
theorem C3_combineSequentialSchedules_partial (A B : Schedule)
    (hany : (List.zipWith Period.canBeCombinedWith A.periods B.periods).any id = true) :
    ∃ M, combineSequentialSchedules [A, B] = [M] ∧
      (∀ ab ∈ List.zip A.periods B.periods,
        ab.1.canBeCombinedWith ab.2 = true →
        ab.1.combineWith ab.2 ∈ M.periods) ∧
      (∀ ab ∈ List.zip A.periods B.periods,
        ab.1.canBeCombinedWith ab.2 = false →
        ab.1 ∈ M.periods ∧ ab.2 ∈ M.periods ∧ ab.1 ∈ M.changed ∧ ab.2 ∈ M.changed) ∧
      (∀ (a1 : Period) (as1 as2 : List Period) (b1 : Period) (bs1 bs2 : List Period)
         (a b : Period),
        A.periods = (a1 :: as1) ++ a :: as2 →
        B.periods = (b1 :: bs1) ++ b :: bs2 →
        as1.length = bs1.length → as2.length = bs2.length →
        (∀ ab ∈ List.zip (a1 :: as1) (b1 :: bs1), ab.1.canBeCombinedWith ab.2 = true) →
        (∀ ab ∈ List.zip as2 bs2, ab.1.canBeCombinedWith ab.2 = true) →
        a.canBeCombinedWith b = false →
        (∀ x ∈ (a1 :: as1) ++ as2, cleanPeriod a1 x) →
        M.changed = [a, b]) := by
  refine ⟨mkMergedSchedule (mergeOccurrences A.periods B.periods),
    combineSeq_pair A B hany, ?_, ?_, ?_⟩
  · intro ab hmem hcomb
    exact mkMergedSchedule_mem_periods
      (mergeOccurrences_comb_mem A.periods B.periods ab hmem hcomb)
  · intro ab hmem hfail
    obtain ⟨m1, m2⟩ := mergeOccurrences_fail_mem A.periods B.periods ab hmem hfail
    exact ⟨mkMergedSchedule_mem_periods m1, mkMergedSchedule_mem_periods m2,
      mkMergedSchedule_mem_changed m1, mkMergedSchedule_mem_changed m2⟩
  · intro a1 as1 as2 b1 bs1 bs2 a b hA hB hlen1 hlen2 hcomb1 hcomb2 hfail hclean
    have h1 : cleanPeriod a1 a1 := hclean a1 (by simp)
    have hm : mergeOccurrences A.periods B.periods =
        (a1.combineWith b1, false) ::
          (((List.zip as1 bs1).map fun ab => (ab.1.combineWith ab.2, false)) ++
           ([(a, true), (b, true)] ++
            ((List.zip as2 bs2).map fun ab => (ab.1.combineWith ab.2, false)))) := by
      rw [hA, hB,
        mergeOccurrences_append (a :: as2) (b :: bs2) (a1 :: as1) (b1 :: bs1)
          (by simp [hlen1]),
        mergeOccurrences_combinable (a1 :: as1) (b1 :: bs1) (by simp [hlen1]) hcomb1,
        mergeOccurrences_cons, if_neg (by simp [hfail]),
        mergeOccurrences_combinable as2 bs2 hlen2 hcomb2,
        List.zip_cons_cons, List.map_cons]
      simp [List.append_assoc]
    have hT1 : ((List.zip as1 bs1).map fun ab => (ab.1.combineWith ab.2, false)).filter
        (fun pb => pb.2 || !matchesRef (a1.combineWith b1) pb.1) = [] := by
      apply filter_combined_nil
      intro ab hab
      have hx : ab.1 ∈ (a1 :: as1) ++ as2 :=
        List.mem_append_left _ (List.mem_cons_of_mem _ (List.of_mem_zip hab).1)
      exact matchesRef_combined a1 b1 ab.1 ab.2 h1 (hclean ab.1 hx)
    have hT2 : ((List.zip as2 bs2).map fun ab => (ab.1.combineWith ab.2, false)).filter
        (fun pb => pb.2 || !matchesRef (a1.combineWith b1) pb.1) = [] := by
      apply filter_combined_nil
      intro ab hab
      have hx : ab.1 ∈ (a1 :: as1) ++ as2 :=
        List.mem_append_right _ (List.of_mem_zip hab).1
      exact matchesRef_combined a1 b1 ab.1 ab.2 h1 (hclean ab.1 hx)
    have hrefmatch : matchesRef (a1.combineWith b1) (a1.combineWith b1) = true :=
      matchesRef_combined a1 b1 a1 b1 h1 h1
    rw [hm]
    simp only [mkMergedSchedule, List.filter_cons, List.filter_append]
    rw [if_neg (by simp [hrefmatch])]
    simp [hT1, hT2, hrefmatch]

/-- Schedule fixtures for the partial-combinability scenario. -/
def schedA : Schedule := mkSchedule [wk1, pc3]

def schedB : Schedule := mkSchedule [adj2, pc4]

/-- C3 witness: the repository's partial-combinability fixture — the first
date pairing combines, the second (cancelled) fails — merges into one
schedule retaining the failing pair, both marked changed. -/
theorem C3_combineSequentialSchedules_partial_witness :
    ∃ M, combineSequentialSchedules [schedA, schedB] = [M] ∧
      (∀ ab ∈ List.zip schedA.periods schedB.periods,
        ab.1.canBeCombinedWith ab.2 = true →
        ab.1.combineWith ab.2 ∈ M.periods) ∧
      (∀ ab ∈ List.zip schedA.periods schedB.periods,
        ab.1.canBeCombinedWith ab.2 = false →
        ab.1 ∈ M.periods ∧ ab.2 ∈ M.periods ∧ ab.1 ∈ M.changed ∧ ab.2 ∈ M.changed) ∧
      (∀ (a1 : Period) (as1 as2 : List Period) (b1 : Period) (bs1 bs2 : List Period)
         (a b : Period),
        schedA.periods = (a1 :: as1) ++ a :: as2 →
        schedB.periods = (b1 :: bs1) ++ b :: bs2 →
        as1.length = bs1.length → as2.length = bs2.length →
        (∀ ab ∈ List.zip (a1 :: as1) (b1 :: bs1), ab.1.canBeCombinedWith ab.2 = true) →
        (∀ ab ∈ List.zip as2 bs2, ab.1.canBeCombinedWith ab.2 = true) →
        a.canBeCombinedWith b = false →
        (∀ x ∈ (a1 :: as1) ++ as2, cleanPeriod a1 x) →
        M.changed = [a, b]) :=
  C3_combineSequentialSchedules_partial schedA schedB (by decide)

end Untis

/-! Concrete evaluations grounding the embedding: the date/time primitives on
sample strings, and the spec-modelled engine on the repository's test
fixtures, reproducing every assertion of the repository's test suite. -/

section TestEvaluations

open Untis

example : testDate "2022-04-20" = true := by decide
example : testDate "2022-4-20" = false := by decide
example : testTime "12:00" = true := by decide
example : testTime "25:00" = false := by decide
example : getDay "2022-04-20" = 3 := by decide
example : getDay "2022-04-27" = 3 := by decide
example : getDay "2022-04-21" = 4 := by decide
example : timeVal "13:05" = 785 := by decide

-- Test: weekly lessons are combined into one schedule, both unchanged.
example : (fromLessons [wk1, wk2]).map (fun s => s.unchanged.length) = [2] := by decide

-- Test: sequential schedules are combined into one.
example :
    (combineSequentialSchedules (fromLessons [wk1, adj2])).length = 1 := by decide

-- Test: partially combinable occurrences, one schedule with two changed.
example :
    (combineSequentialSchedules (fromLessons [wk1, adj2, pc3, pc4])).map
      (fun s => s.changed.length) = [2] := by decide

-- Test: partially combinable because of different elements.
example :
    (combineSequentialSchedules (fromLessons [wk1, adj2, el3, el4])).map
      (fun s => s.changed.length) = [2] := by decide

-- The changed occurrences of the partial merge are exactly the failing pair.
example :
    (combineSequentialSchedules (fromLessons [wk1, adj2, pc3, pc4])).map
      (fun s => s.changed) = [[pc3, pc4]] := by decide

end TestEvaluations
